import Mathlib

/-!
Verification of the GFF feature subsystem (gff.c): data model, grouping,
overlap resolution, structural derivation and merging, shallowly embedded
in Lean.  C machine integers are `Int` (no arithmetic here approaches the
32-bit bound), C doubles are `Rat`, nullable score/frame fields are
`Option`, and `die(...)` is `Except.error`.  C's `%` on `int` truncates
toward zero, which is `Int.tmod`.
-/

namespace Phast

/-- A feature record (`struct GFF_Feature`).  The C field `end` is a Lean
keyword and is called `stop` here; the C pair `score`/`score_is_null` is a
single `Option Rat`; the C `frame`/`GFF_NULL_FRAME` pair is a single
`Option Int` (internal representation); the C field `attribute` is a Lean keyword and is called `attr`.  The `id` field stands for the
identity of the heap object: the C code compares features by pointer
(`gff_group_idx`), and group member lists alias the very objects owned by
the set's flat list. -/
structure GFF_Feature where
  id : Nat
  seqname : String
  source : String
  feature : String
  start : Int
  stop : Int
  score : Option Rat
  strand : Char
  frame : Option Int
  attr : String
deriving DecidableEq

/-- A feature group (`struct GFF_FeatureGroup`): a name (the tag value), a
member list aliasing the set's features (here: by value, identified through
`id`), and the cached span. -/
structure GFF_FeatureGroup where
  name : String
  features : List GFF_Feature
  start : Int
  stop : Int
deriving DecidableEq

/-- `struct GFF_Set`: the flat, ordered, owning feature list plus the
optional grouping.  The metadata strings (version, source, date) play no
role in any operation modelled here and are omitted. -/
structure GFF_Set where
  features : List GFF_Feature
  groups : Option (List GFF_FeatureGroup)
  group_tag : Option String
deriving DecidableEq

/-- Modelled from the spec: the feature-type label constants (GFF_CDS_TYPE
and friends) live in the header gff.h, which is not among the source files;
the labels are opaque to the algorithms, only their distinctness matters.
Names follow the header's macro names. -/
def GFF_CDS_TYPE : String := "CDS"

/-- Modelled from the spec: see `GFF_CDS_TYPE`. -/
def GFF_EXON_TYPE : String := "exon"

/-- Modelled from the spec: see `GFF_CDS_TYPE`. -/
def GFF_INTRON_TYPE : String := "intron"

/-- Modelled from the spec: see `GFF_CDS_TYPE` (start codon). -/
def GFF_START_TYPE : String := "start_codon"

/-- Modelled from the spec: see `GFF_CDS_TYPE` (stop codon). -/
def GFF_STOP_TYPE : String := "stop_codon"

/-- Modelled from the spec: see `GFF_CDS_TYPE` (5' untranslated region). -/
def GFF_UTR5_TYPE : String := "5'UTR"

/-- Modelled from the spec: see `GFF_CDS_TYPE` (3' untranslated region). -/
def GFF_UTR3_TYPE : String := "3'UTR"

/-- Modelled from the spec: see `GFF_CDS_TYPE` (5' splice site). -/
def GFF_SPLICE5_TYPE : String := "splice_5"

/-- Modelled from the spec: see `GFF_CDS_TYPE` (3' splice site). -/
def GFF_SPLICE3_TYPE : String := "splice_3"

/-- Modelled from the spec: the INFTY sentinel of the missing header, a
coordinate bound larger than any coordinate in play. -/
def INFTY : Int := 999999999

/-- Modelled from the spec: the GFF_NULL_FRAME sentinel of the missing
header — the `int` the C code stores for an undefined frame (frames are
`Option Int` here); it is the value an undefined frame contributes when the
C does arithmetic directly on the frame field. -/
def intOfFrame : Option Int → Int
  | none => -1
  | some k => k

/-- The `'\0'` initial value of the per-group `strand` scan variable. -/
def nullChar : Char := Char.ofNat 0

/-- The frame column of `gff_read_set` (gff.c lines 172-182): `.` (here
`none`) stays the null frame; an integer is validated to 0..2 and stored
internally as `(3 - frame) % 3`; anything else aborts the run. -/
def gff_read_frame : Option Int → Except String (Option Int)
  | none => .ok none
  | some f =>
    if f < 0 ∨ f > 2 then .error "ERROR: illegal frame"
    else .ok (some (Int.tmod (3 - f) 3))

/-- The frame column of `gff_print_feat` (gff.c lines 368-369): the null
frame prints as `.`, otherwise the internal frame is converted back to the
external convention with `(3 - frame) % 3`. -/
def gff_print_frame : Option Int → String
  | none => "."
  | some fr => toString (Int.tmod (3 - fr) 3)

/-- The per-feature transform of `gff_reverse_compl` (gff.c lines 545-552):
reflect the coordinates inside `[start_range, end_range]` and flip the
strand. -/
def reverse_compl_feat (start_range end_range : Int) (f : GFF_Feature) : GFF_Feature :=
  { f with
    start := end_range - f.stop + start_range,
    stop := end_range - f.start + start_range,
    strand := if f.strand = '-' then '+' else if f.strand = '+' then '-' else f.strand }

/-- `gff_reverse_compl` (gff.c lines 533-560): transform every feature of
the list, then reverse the order (the C swaps positions `i` and `n-1-i`
for every `i < n/2`, which is exactly list reversal). -/
def gff_reverse_compl (features : List GFF_Feature) (start_range end_range : Int) :
    List GFF_Feature :=
  (features.map (reverse_compl_feat start_range end_range)).reverse

/-- The order `gff_feature_comparator` (gff.c lines 563-573) establishes:
by start ascending, ties by end ascending («comparator ≤ 0»). -/
def featLe (f1 f2 : GFF_Feature) : Prop :=
  f1.start < f2.start ∨ (f1.start = f2.start ∧ f1.stop ≤ f2.stop)

instance : DecidableRel featLe := fun f1 f2 =>
  inferInstanceAs (Decidable (f1.start < f2.start ∨ (f1.start = f2.start ∧ f1.stop ≤ f2.stop)))

instance : IsTotal GFF_Feature featLe :=
  ⟨fun f1 f2 => by
    unfold featLe
    rcases lt_trichotomy f1.start f2.start with h | h | h
    · exact Or.inl (Or.inl h)
    · rcases le_total f1.stop f2.stop with h2 | h2
      · exact Or.inl (Or.inr ⟨h, h2⟩)
      · exact Or.inr (Or.inr ⟨h.symm, h2⟩)
    · exact Or.inr (Or.inl h)⟩

instance : IsTrans GFF_Feature featLe :=
  ⟨fun a b c hab hbc => by
    unfold featLe at *
    rcases hab with h1 | ⟨h1, h1'⟩ <;> rcases hbc with h2 | ⟨h2, h2'⟩
    · exact Or.inl (h1.trans h2)
    · exact Or.inl (h2 ▸ h1)
    · exact Or.inl (h1 ▸ h2)
    · exact Or.inr ⟨h1.trans h2, h1'.trans h2'⟩⟩

/-- The order `gff_group_comparator` (gff.c lines 576-586) establishes:
a group with an empty member list compares equal to anything ("just to be
safe"); otherwise by cached (start, end) ascending. -/
def groupLe (g1 g2 : GFF_FeatureGroup) : Prop :=
  g1.features = [] ∨ g2.features = [] ∨
    g1.start < g2.start ∨ (g1.start = g2.start ∧ g1.stop ≤ g2.stop)

instance : DecidableRel groupLe := fun g1 g2 =>
  inferInstanceAs (Decidable (g1.features = [] ∨ g2.features = [] ∨
    g1.start < g2.start ∨ (g1.start = g2.start ∧ g1.stop ≤ g2.stop)))

/-- `gff_sort` (gff.c lines 588-609): an ungrouped set sorts the flat list
by `gff_feature_comparator`; a grouped set sorts each group's member list,
then the groups by `gff_group_comparator`, and rewrites the flat list as
the concatenation of the groups in their new order.  `lst_qsort` is a
comparator sort; it is embedded as an insertion sort over the comparator's
order. -/
def gff_sort (s : GFF_Set) : GFF_Set :=
  match s.groups with
  | none => { s with features := List.insertionSort featLe s.features }
  | some gs =>
    let gs1 := gs.map (fun g => { g with features := List.insertionSort featLe g.features })
    let gs2 := List.insertionSort groupLe gs1
    { s with groups := some gs2,
             features := gs2.foldl (fun acc g => acc ++ g.features) [] }

/-- One step of the grouping loop of `gff_group` (gff.c lines 635-667):
look the feature's tag value up among the existing groups; on first sight
create a group whose span is the feature's own coordinates, otherwise
extend the group's span by min/max and append the member. -/
def gff_group_step (keyOf : GFF_Feature → String) (gs : List GFF_FeatureGroup)
    (f : GFF_Feature) : List GFF_FeatureGroup :=
  let val := keyOf f
  if gs.any (fun g => g.name == val) then
    gs.map (fun g =>
      if g.name = val then
        { g with features := g.features ++ [f],
                 start := if f.start < g.start then f.start else g.start,
                 stop := if f.stop > g.stop then f.stop else g.stop }
      else g)
  else gs ++ [{ name := val, features := [f], start := f.start, stop := f.stop }]

/-- `gff_group` (gff.c lines 613-673).  Modelled from the spec in one
respect: the extraction of the tag value from the attribute blob is a
regular-expression search living in the string library, which is not among
the source files; it is abstracted as the parameter `keyOf` (a feature with
no parsable tag yields the shared empty string).  The grouping loop itself
follows the source; the hashtable keyed by tag value is a by-name lookup
in the group list. -/
def gff_group (keyOf : GFF_Feature → String) (tag : String) (s : GFF_Set) : GFF_Set :=
  { s with groups := some (s.features.foldl (gff_group_step keyOf) []),
           group_tag := some tag }

/-- `gff_ungroup` (gff.c lines 715-728): drop the grouping, if any. -/
def gff_ungroup (s : GFF_Set) : GFF_Set :=
  match s.groups with
  | none => s
  | some _ => { s with groups := none, group_tag := none }

/-- The rough score `gff_remove_overlaps` assigns to a group (gff.c lines
818-828): the sum of the defined member scores; if no member has a defined
score, fall back to the span length. -/
def groupScore (g : GFF_FeatureGroup) : Rat :=
  let p := g.features.foldl (fun (p : Rat × Bool) f =>
    match f.score with
    | some x => (p.1 + x, true)
    | none => p) (0, false)
  if p.2 then p.1 else ((g.stop - g.start + 1 : Int) : Rat)

/-- Modelled from the spec: `lst_bsearch_int` lives in the list library,
which is not among the source files; per the call-site comment (gff.c lines
840-841) it returns, for the sorted list maintained here, the index of the
last element that is at most the key ("the previous feature"), or -1 when
the key precedes every element. -/
def bsearchInt (l : List Int) (v : Int) : Int :=
  ((l.takeWhile (fun x => decide (x ≤ v))).length : Int) - 1

/-- The downward overlap scan of `gff_remove_overlaps` (gff.c lines
854-858): the first argument is one past the index scanned (so 0 stops);
while the retained end at the index reaches the candidate start, count the
index and accumulate its score. -/
def downScan (ends : List Int) (scores : List Rat) : Nat → Int → Nat × Rat
  | 0, _ => (0, 0)
  | i+1, st =>
    if ends.getD i 0 ≥ st then
      let p := downScan ends scores i st
      (p.1 + 1, p.2 + scores.getD i 0)
    else (0, 0)

/-- The upward overlap scan of `gff_remove_overlaps` (gff.c lines 859-863):
from index `j` upward, while the retained start at the index is at most the
candidate end, count the index and accumulate its score. -/
def upScan (starts : List Int) (scores : List Rat) (j : Nat) (en : Int) : Nat × Rat :=
  if h : j < starts.length then
    if starts.getD j 0 ≤ en then
      let p := upScan starts scores (j+1) en
      (p.1 + 1, p.2 + scores.getD j 0)
    else (0, 0)
  else (0, 0)
termination_by starts.length - j

/-- Net effect of the eviction loop of `gff_remove_overlaps` (gff.c lines
866-872): deleting at index `lo` once per evicted group removes the block
of `k` elements starting at `lo`. -/
def eraseBlock (l : List α) (lo k : Nat) : List α := l.take lo ++ l.drop (lo + k)

/-- Modelled from the spec: `lst_insert_idx_*` of the missing list library
inserts directly after the given index (the call sites insert after "the
previous feature", index -1 inserting at the front). -/
def insertAfter (l : List α) (idx : Int) (a : α) : List α :=
  l.take (idx + 1).toNat ++ a :: l.drop (idx + 1).toNat

/-- The retained state of `gff_remove_overlaps`: the three parallel sorted
lists, the kept groups, and the end of the rightmost group retained on the
fast path so far (`last_end`, initially -1). -/
structure ROState where
  starts : List Int
  ends : List Int
  scores : List Rat
  keepers : List GFF_FeatureGroup
  lastEnd : Int

/-- One iteration of the candidate loop of `gff_remove_overlaps` (gff.c
lines 816-903).  A candidate past the last retained end is kept outright;
otherwise the retained groups intersecting it are found around the binary
search point and their scores summed: a candidate scoring strictly more
evicts them all and takes their place, any other candidate is discarded. -/
def removeOverlapsStep (st : ROState) (g : GFF_FeatureGroup) : ROState :=
  let score := groupScore g
  if g.start > st.lastEnd then
    { starts := st.starts ++ [g.start], ends := st.ends ++ [g.stop],
      scores := st.scores ++ [score], keepers := st.keepers ++ [g],
      lastEnd := g.stop }
  else
    let listIdx : Int := bsearchInt st.starts g.start
    let prevEnd : Int := if listIdx ≥ 0 then st.ends.getD listIdx.toNat 0 else -1
    let nextStart : Int :=
      if listIdx + 1 < (st.starts.length : Int) then st.starts.getD (listIdx + 1).toNat 0
      else INFTY
    if prevEnd ≥ g.start ∨ nextStart ≤ g.stop then
      let down := downScan st.ends st.scores (listIdx + 1).toNat g.start
      let up := upScan st.starts st.scores (listIdx + 1).toNat g.stop
      let altscore := down.2 + up.2
      if score > altscore then
        let lo := (listIdx + 1).toNat - down.1
        let k := down.1 + up.1
        { starts := insertAfter (eraseBlock st.starts lo k) ((lo : Int) - 1) g.start,
          ends := insertAfter (eraseBlock st.ends lo k) ((lo : Int) - 1) g.stop,
          scores := insertAfter (eraseBlock st.scores lo k) ((lo : Int) - 1) score,
          keepers := insertAfter (eraseBlock st.keepers lo k) ((lo : Int) - 1) g,
          lastEnd := if g.stop > st.lastEnd then g.stop else st.lastEnd }
      else st
    else
      { starts := insertAfter st.starts listIdx g.start,
        ends := insertAfter st.ends listIdx g.stop,
        scores := insertAfter st.scores listIdx score,
        keepers := insertAfter st.keepers listIdx g,
        lastEnd := if g.stop > st.lastEnd then g.stop else st.lastEnd }

/-- `gff_remove_overlaps` (gff.c lines 798-918): requires groups; processes
the groups in order and keeps the survivors, rewriting the flat feature
list as their concatenation.  (The discard sink only receives output and is
not modelled; discarded groups and their features are simply gone.) -/
def gff_remove_overlaps (s : GFF_Set) : Except String GFF_Set :=
  match s.groups with
  | none => .error "ERROR: gff_remove_overlaps requires groups.\n"
  | some gs =>
    let st := gs.foldl removeOverlapsStep ⟨[], [], [], [], -1⟩
    .ok { s with groups := some st.keepers,
                 features := st.keepers.foldl (fun acc g => acc ++ g.features) [] }

/-- The inner loop of `gff_group_idx`: position of the feature (by object
identity, i.e. `id`) in a member list. -/
def findPosById : List GFF_Feature → Nat → Nat → Option Nat
  | [], _, _ => none
  | m :: ms, fid, p => if m.id = fid then some p else findPosById ms fid (p+1)

/-- The outer loop of `gff_group_idx` (gff.c lines 1267-1275): first group
holding the feature, with the position inside it. -/
def searchGroups : List GFF_FeatureGroup → Nat → Nat → Option (Nat × Nat)
  | [], _, _ => none
  | g :: rest, fid, i =>
    match findPosById g.features fid 0 with
    | some p => some (i, p)
    | none => searchGroups rest fid (i+1)

/-- `gff_group_idx` (gff.c lines 1262-1278): -1 (here `none`) when the set
is ungrouped; otherwise the group index and in-group position of the
feature — and an abort when the set is grouped but the feature cannot be
located in any group. -/
def gff_group_idx (s : GFF_Set) (f : GFF_Feature) : Except String (Option (Nat × Nat)) :=
  match s.groups with
  | none => .ok none
  | some gs =>
    match searchGroups gs f.id 0 with
    | some ip => .ok (some ip)
    | none => .error "ERROR: gff_group_idx couldn't find feature in any group\n"

/-- The merge condition of `gff_flatten_sub` (gff.c lines 1309-1311):
overlap or direct adjacency, same strand, same type, both frames
undefined. -/
def mergeable (last this : GFF_Feature) : Bool :=
  decide (last.stop ≥ this.start - 1) && decide (last.strand = this.strand) &&
  decide (last.feature = this.feature) && decide (last.frame = none) &&
  decide (this.frame = none)

/-- The merge itself (gff.c lines 1325-1328): extend `last` over `this`,
summing the scores when both are defined; `this`'s attribute is dropped
with it. -/
def mergeFeat (last this : GFF_Feature) : GFF_Feature :=
  { last with
    stop := this.stop,
    score := (match last.score, this.score with
      | some a, some b => some (a + b)
      | _, _ => last.score) }

/-- The merging loop of `gff_flatten_sub` with `keepGroups == 0` (gff.c
lines 1307-1336): the running feature `last` absorbs each mergeable
successor; a non-mergeable successor finalizes `last` onto the keepers list
and runs in its place.  Returns the keepers and the changed flag. -/
def flattenRun : GFF_Feature → List GFF_Feature → List GFF_Feature × Bool
  | last, [] => ([last], false)
  | last, this :: rest =>
    if mergeable last this then
      ((flattenRun (mergeFeat last this) rest).1, true)
    else
      let r := flattenRun this rest
      (last :: r.1, r.2)

/-- `gff_flatten` (gff.c lines 1353-1355), i.e. `gff_flatten_sub(feats, 0)`:
a set with at most one feature is untouched; otherwise run the merging loop
and, when anything merged, install the keepers and drop the grouping. -/
def gff_flatten (s : GFF_Set) : GFF_Set :=
  match s.features with
  | [] => s
  | [_] => s
  | f :: this :: rest =>
    let r := flattenRun f (this :: rest)
    if r.2 then gff_ungroup { s with features := r.1 } else s

/-- Replace every member of every group by its updated version found (by
id) in the flat list: this models the C aliasing, where a group member IS
the object in the flat list and sees its mutations. -/
def syncGroups (gs : List GFF_FeatureGroup) (feats : List GFF_Feature) :
    List GFF_FeatureGroup :=
  gs.map (fun g => { g with features := g.features.map (fun m =>
    (match feats.find? (fun f => f.id == m.id) with
     | some f => f
     | none => m)) })

/-- Remove the member at position `p` from the group at index `i`. -/
def eraseMember (gs : List GFF_FeatureGroup) (i p : Nat) : List GFF_FeatureGroup :=
  gs.mapIdx (fun j g => if j = i then { g with features := g.features.eraseIdx p } else g)

/-- The merging loop of `gff_flatten_sub` with `keepGroups != 0` on a
grouped set (gff.c lines 1307-1336).  Both of the candidate pair are
resolved to their group with the membership lookup (whose abort
propagates).  When they resolve to different groups the C `continue` moves
to the next feature without pushing `this` onto the keepers list — `this`
is silently dropped from the output whenever the pass changes anything —
modelled exactly as the source has it.  On a same-group merge the discarded
feature is removed from the group's member list; the C at gff.c line 1323
passes the group object itself rather than its member list to
`lst_delete_idx`, so what is modelled here is the removal the source
comment ("need to remove this from group list") intends. -/
def flattenKeepRun : List GFF_Feature → GFF_Feature → List GFF_FeatureGroup →
    Except String (List GFF_Feature × List GFF_FeatureGroup × Bool)
  | [], last, gs => .ok ([last], gs, false)
  | this :: rest, last, gs =>
    if mergeable last this then
      match searchGroups gs this.id 0, searchGroups gs last.id 0 with
      | some tp, some lp =>
        if tp.1 ≠ lp.1 then
          flattenKeepRun rest last gs
        else
          match flattenKeepRun rest (mergeFeat last this) (eraseMember gs tp.1 tp.2) with
          | .ok r => .ok (r.1, r.2.1, true)
          | .error e => .error e
      | _, _ => .error "ERROR: gff_group_idx couldn't find feature in any group\n"
    else
      match flattenKeepRun rest this gs with
      | .ok r => .ok (last :: r.1, r.2.1, r.2.2)
      | .error e => .error e

/-- `gff_flatten_sub` with `keepGroups != 0` (gff.c lines 1296-1345): on an
ungrouped set the plain merging loop runs and the grouping (absent) is
preserved; on a grouped set the group-respecting loop runs and, when
anything changed, the keepers are installed and the groups (with members
removed, and aliasing the updated features) are preserved. -/
def gff_flatten_sub_keep (s : GFF_Set) : Except String GFF_Set :=
  match s.features with
  | [] => .ok s
  | [_] => .ok s
  | f :: this :: rest =>
    match s.groups with
    | none =>
      let r := flattenRun f (this :: rest)
      .ok (if r.2 then { s with features := r.1 } else s)
    | some gs =>
      match flattenKeepRun (this :: rest) f gs with
      | .ok r =>
        .ok (if r.2.2 then
              { s with features := r.1, groups := some (syncGroups r.2.1 r.1) }
             else s)
      | .error e => .error e

/-- Replace every feature of the flat list by its updated version found (by
id) among the groups' members: the converse direction of the C aliasing,
for operations that mutate features through the group member lists. -/
def syncFeatures (feats : List GFF_Feature) (gs : List GFF_FeatureGroup) :
    List GFF_Feature :=
  feats.map (fun f =>
    (match gs.findSome? (fun g => g.features.find? (fun m => m.id == f.id)) with
     | some f2 => f2
     | none => f))

/-- The CDS adjustment of `gff_fix_start_stop` for one feature (gff.c lines
940-960), given the group's start-codon and stop-codon features: include
the start codon (strand-aware), exclude the stop codon, guarding against
inverting the interval. -/
def fixStartStopFeat (startF stopF : Option GFF_Feature) (f : GFF_Feature) : GFF_Feature :=
  if f.feature = GFF_CDS_TYPE then
    let f1 :=
      match startF with
      | some st =>
        if f.strand = '+' ∧ f.start = st.stop + 1 then { f with start := st.start }
        else if f.strand = '-' ∧ f.stop = st.start - 1 then { f with stop := st.stop }
        else f
      | none => f
    match stopF with
    | some sp =>
      if f1.strand = '+' ∧ f1.stop = sp.stop ∧ sp.start - 1 ≥ f1.start then
        { f1 with stop := sp.start - 1 }
      else if f1.strand = '-' ∧ f1.start = sp.start ∧ sp.stop + 1 ≤ f1.stop then
        { f1 with start := sp.stop + 1 }
      else f1
    | none => f1
  else f

/-- `gff_fix_start_stop` on one group (gff.c lines 929-962): scan for the
(last) start-codon and stop-codon member, then adjust every CDS member. -/
def fixStartStopGroup (g : GFF_FeatureGroup) : GFF_FeatureGroup :=
  let startF := g.features.foldl
    (fun acc f => if f.feature = GFF_START_TYPE then some f else acc) none
  let stopF := g.features.foldl
    (fun acc f => if f.feature = GFF_STOP_TYPE then some f else acc) none
  if startF.isSome ∨ stopF.isSome then
    { g with features := g.features.map (fixStartStopFeat startF stopF) }
  else g

/-- `gff_fix_start_stop` (gff.c lines 924-963): requires groups. -/
def gff_fix_start_stop (s : GFF_Set) : Except String GFF_Set :=
  match s.groups with
  | none => .error "ERROR: gff_fix_start_stop requires groups.\n"
  | some gs =>
    let gs2 := gs.map fixStartStopGroup
    .ok { s with groups := some gs2, features := syncFeatures s.features gs2 }

/-- The leftward absorption loop of `gff_absorb_helpers` (gff.c lines
982-996): the first `Nat` argument is one past the index scanned (0 stops);
while the neighbour is a contiguous helper, extend the primary feature over
it, compensating the frame on the `+` strand with `(frame + 2*len) % 3`. -/
def extendLeft (helpers : List String) (l : List GFF_Feature) : Nat → GFF_Feature → GFF_Feature
  | 0, f => f
  | k+1, f =>
    match l[k]? with
    | some prev =>
      if prev.feature ∈ helpers ∧ prev.stop = f.start - 1 then
        extendLeft helpers l k
          { f with
            start := prev.start,
            frame := if f.strand = '+' then
                f.frame.map (fun fr => Int.tmod (fr + 2*(prev.stop - prev.start + 1)) 3)
              else f.frame }
      else f
    | none => f

/-- The rightward absorption loop of `gff_absorb_helpers` (gff.c lines
998-1007), symmetric to `extendLeft`, compensating the frame on the `-`
strand. -/
def extendRight (helpers : List String) (l : List GFF_Feature) (k : Nat)
    (f : GFF_Feature) : GFF_Feature :=
  if h : k < l.length then
    let nxt := l[k]
    if nxt.feature ∈ helpers ∧ nxt.start = f.stop + 1 then
      extendRight helpers l (k+1)
        { f with
          stop := nxt.stop,
          frame := if f.strand = '-' then
              f.frame.map (fun fr => Int.tmod (fr + 2*(nxt.stop - nxt.start + 1)) 3)
            else f.frame }
    else f
  else f
termination_by l.length - k

/-- The member loop of `gff_absorb_helpers` on one group (gff.c lines
978-1009): walk the member list left to right; at each primary feature
absorb the adjacent helpers on both sides and write the updated feature
back at its position (the second `Nat` argument counts the remaining
positions). -/
def absorbGo (primary helpers : List String) : List GFF_Feature → Nat → Nat → List GFF_Feature
  | l, _, 0 => l
  | l, j, k+1 =>
    let l2 :=
      match l[j]? with
      | some f =>
        if f.feature ∈ primary then
          let f1 := extendLeft helpers l j f
          let f2 := extendRight helpers l (j+1) f1
          l.set j f2
        else l
      | none => l
    absorbGo primary helpers l2 (j+1) k

/-- `gff_absorb_helpers` (gff.c lines 969-1011): requires groups; only
coordinates (and frames) change, no feature is created or discarded. -/
def gff_absorb_helpers (primary helpers : List String) (s : GFF_Set) :
    Except String GFF_Set :=
  match s.groups with
  | none => .error "ERROR: gff_absorb_helpers requires groups.\n"
  | some gs =>
    let gs2 := gs.map (fun g =>
      { g with features := absorbGo primary helpers g.features 0 g.features.length })
    .ok { s with groups := some gs2, features := syncFeatures s.features gs2 }

/-- `gff_add_gene_id` (gff.c lines 1015-1029): requires groups; prefixes
every member's attribute text with a gene_id tag carrying the group name
(note the C message names gff_apply_gene_id). -/
def gff_add_gene_id (s : GFF_Set) : Except String GFF_Set :=
  match s.groups with
  | none => .error "ERROR: gff_apply_gene_id requires groups.\n"
  | some gs =>
    let gs2 := gs.map (fun g => { g with features := g.features.map (fun f =>
      { f with attr := "gene_id \"" ++ g.name ++ "\" ; " ++ f.attr }) })
    .ok { s with groups := some gs2, features := syncFeatures s.features gs2 }

/-- `gff_filter_by_group` (gff.c lines 1032-1065): requires groups; keep
only the features of groups whose name is listed (in group order), then
regroup by the same tag (`keyOf` abstracts the tag extraction as in
`gff_group`). -/
def gff_filter_by_group (keyOf : GFF_Feature → String) (names : List String)
    (s : GFF_Set) : Except String GFF_Set :=
  match s.groups with
  | none => .error "ERROR: gff_filter_by_group requires groups.\n"
  | some gs =>
    let keepers := gs.foldl (fun acc g => if g.name ∈ names then acc ++ g.features else acc) []
    .ok (gff_group keyOf (s.group_tag.getD "") { s with features := keepers })

/-- Derived features are fresh heap objects in C (`gff_new_feature_copy`
allocates); fresh ids start past every id in the set. -/
def freshIdBase (s : GFF_Set) : Nat :=
  (s.features.foldl (fun a f => max a f.id) 0) + 1

/-- The CDS-span scan shared by `gff_create_utrs` and `gff_create_signals`
(gff.c lines 1086-1089 and 1177-1180): min start and max end over the CDS
members, initialized to (INFTY, -1). -/
def cdsSpan (g : GFF_FeatureGroup) : Int × Int :=
  g.features.foldl (fun (p : Int × Int) f =>
    if f.feature = GFF_CDS_TYPE then
      ((if f.start < p.1 then f.start else p.1), (if f.stop > p.2 then f.stop else p.2))
    else p) (INFTY, -1)

/-- The per-group strand scan (gff.c lines 1094 and 1187): the strand of
the first member (the variable starts as `'\0'`). -/
def groupStrand (g : GFF_FeatureGroup) : Char :=
  g.features.foldl (fun st f => if st = nullChar then f.strand else st) nullChar

/-- `gff_create_utrs` on one group (gff.c lines 1076-1120): collect the CDS
span, the exon members and the strand; then, when a CDS exists, clip a copy
of every exon overhanging the CDS span at the CDS boundary and label it a
UTR (which of 5'/3' depends on the strand).  Returns the extended group,
the features appended to the flat list, and the next fresh id. -/
def createUtrsGroup (g : GFF_FeatureGroup) (ctr : Nat) :
    GFF_FeatureGroup × List GFF_Feature × Nat :=
  let sp := cdsSpan g
  let exons := g.features.filter (fun f => f.feature == GFF_EXON_TYPE)
  let strand := groupStrand g
  if sp.2 > 0 then
    let r := exons.foldl (fun (acc : List GFF_Feature × Nat) f =>
      let acc :=
        if f.start < sp.1 then
          (acc.1 ++ [{ f with
              id := acc.2,
              stop := if f.stop ≥ sp.1 then sp.1 - 1 else f.stop,
              feature := if strand = '-' then GFF_UTR3_TYPE else GFF_UTR5_TYPE }],
           acc.2 + 1)
        else acc
      if f.stop > sp.2 then
        (acc.1 ++ [{ f with
            id := acc.2,
            start := if f.start ≤ sp.2 then sp.2 + 1 else f.start,
            feature := if strand = '-' then GFF_UTR5_TYPE else GFF_UTR3_TYPE }],
         acc.2 + 1)
      else acc) ([], ctr)
    ({ g with features := g.features ++ r.1 }, r.1, r.2)
  else (g, [], ctr)

/-- `gff_create_utrs` (gff.c lines 1069-1122): requires groups; every
derived UTR is appended both to the flat list and to its group's member
list. -/
def gff_create_utrs (s : GFF_Set) : Except String GFF_Set :=
  match s.groups with
  | none => .error "ERROR: gff_create_utrs requires groups.\n"
  | some gs =>
    let r := gs.foldl (fun (acc : List GFF_FeatureGroup × List GFF_Feature × Nat) g =>
      let t := createUtrsGroup g acc.2.2
      (acc.1 ++ [t.1], acc.2.1 ++ t.2.1, t.2.2)) ([], [], freshIdBase s)
    .ok { s with groups := some r.1, features := s.features ++ r.2.1 }

/-- The intron loop of `gff_create_introns` (gff.c lines 1144-1154): one
intron per consecutive pair of sorted exons, copied from the left exon and
spanning the gap. -/
def intronsFromExons : List GFF_Feature → Nat → List GFF_Feature × Nat
  | e1 :: e2 :: rest, ctr =>
    let intr := { e1 with
      id := ctr, start := e1.stop + 1, stop := e2.start - 1, feature := GFF_INTRON_TYPE }
    let r := intronsFromExons (e2 :: rest) (ctr + 1)
    (intr :: r.1, r.2)
  | _, ctr => ([], ctr)

/-- `gff_create_introns` (gff.c lines 1125-1157): requires groups; per
group, sort the exon members and put an intron between each consecutive
pair, appending to both views. -/
def gff_create_introns (s : GFF_Set) : Except String GFF_Set :=
  match s.groups with
  | none => .error "ERROR: gff_create_introns requires groups.\n"
  | some gs =>
    let r := gs.foldl (fun (acc : List GFF_FeatureGroup × List GFF_Feature × Nat) g =>
      let exons := List.insertionSort featLe
        (g.features.filter (fun f => f.feature == GFF_EXON_TYPE))
      let t := intronsFromExons exons acc.2.2
      (acc.1 ++ [{ g with features := g.features ++ t.1 }], acc.2.1 ++ t.1, t.2))
      ([], [], freshIdBase s)
    .ok { s with groups := some r.1, features := s.features ++ r.2.1 }

/-- The codon blocks of the signal loop of `gff_create_signals` (gff.c
lines 1194-1223) for one feature: when it is a CDS at least 3 bp long lying
at a boundary of the group's CDS span, carve out a 3-bp codon feature,
trimming the CDS itself by 3 bp when the carved codon is a stop codon
(`-` strand upstream end, `+` strand downstream end, with the frame
re-derived after the trim).  Mutations are sequential as in the C. -/
def signalCodons (cdsS cdsE : Int) (strand : Char) (f : GFF_Feature) (ctr : Nat) :
    GFF_Feature × List GFF_Feature × Nat :=
  if f.feature = GFF_CDS_TYPE ∧ f.stop - f.start + 1 ≥ 3 then
    let t1 :=
      if f.start = cdsS then
        if strand = '-' then
          let f1 := { f with start := f.start + 3 }
          (f1,
           [{ f with
              id := ctr, stop := f.start + 2, feature := GFF_STOP_TYPE,
              frame := some (Int.tmod (intOfFrame f.frame + f1.stop - f1.start + 1) 3) }],
           ctr + 1)
        else
          (f, [{ f with id := ctr, stop := f.start + 2, feature := GFF_START_TYPE }], ctr + 1)
      else (f, ([] : List GFF_Feature), ctr)
    let f1 := t1.1
    if f1.stop = cdsE then
      if strand = '-' then
        (f1,
         t1.2.1 ++ [{ f1 with id := t1.2.2, start := f1.stop - 2, feature := GFF_START_TYPE }],
         t1.2.2 + 1)
      else
        let f2 := { f1 with stop := f1.stop - 3 }
        (f2,
         t1.2.1 ++ [{ f1 with
            id := t1.2.2, start := f1.stop - 2, feature := GFF_STOP_TYPE,
            frame := some (Int.tmod (intOfFrame f1.frame + f2.stop - f2.start + 1) 3) }],
         t1.2.2 + 1)
    else t1
  else (f, [], ctr)

/-- The splice-site blocks of the signal loop (gff.c lines 1225-1253) for
one feature, applied to its state after the codon blocks: a 2-bp splice
site immediately before/after any CDS or UTR boundary that is not already a
transcript or CDS terminal boundary. -/
def signalSplices (cdsS cdsE transS transE : Int) (strand : Char) (f : GFF_Feature)
    (ctr : Nat) : List GFF_Feature × Nat :=
  let t1 :=
    if (f.feature = GFF_CDS_TYPE ∧ f.start ≠ cdsS ∧ f.start ≠ cdsS + 3) ∨
       ((f.feature = GFF_UTR5_TYPE ∨ f.feature = GFF_UTR3_TYPE) ∧
        f.start ≠ transS ∧ f.start ≠ cdsE + 1) then
      ([{ f with
          id := ctr, stop := f.start - 1, start := f.start - 2,
          feature := if strand = '-' then GFF_SPLICE5_TYPE else GFF_SPLICE3_TYPE }],
       ctr + 1)
    else ([], ctr)
  if (f.feature = GFF_CDS_TYPE ∧ f.stop ≠ cdsE ∧ f.stop ≠ cdsE - 3) ∨
     ((f.feature = GFF_UTR5_TYPE ∨ f.feature = GFF_UTR3_TYPE) ∧
      f.stop ≠ cdsS - 1 ∧ f.stop ≠ transE) then
    (t1.1 ++ [{ f with
        id := t1.2, start := f.stop + 1, stop := f.stop + 2,
        feature := if strand = '-' then GFF_SPLICE3_TYPE else GFF_SPLICE5_TYPE }],
     t1.2 + 1)
  else t1

/-- One visit of the signal loop: the codon blocks, then the splice blocks
on the possibly trimmed feature.  Returns the updated feature, the created
features in creation order, and the next fresh id. -/
def signalStep (cdsS cdsE transS transE : Int) (strand : Char) (f : GFF_Feature)
    (ctr : Nat) : GFF_Feature × List GFF_Feature × Nat :=
  let t1 := signalCodons cdsS cdsE strand f ctr
  let t2 := signalSplices cdsS cdsE transS transE strand t1.1 t1.2.2
  (t1.1, t1.2.1 ++ t2.1, t2.2)

/-- The member loop of `gff_create_signals` (gff.c lines 1191-1254).  The C
appends the created features to the very list it iterates, so appended
members are themselves visited (they are codon or splice features and match
none of the loop's conditions); the recursion is fuelled, with enough fuel
for every visit.  Returns the final member list, the created features in
creation order, and the next fresh id. -/
def signalsLoop (cdsS cdsE transS transE : Int) (strand : Char) :
    Nat → List GFF_Feature → Nat → Nat → List GFF_Feature × List GFF_Feature × Nat
  | 0, l, _, ctr => (l, [], ctr)
  | fuel+1, l, j, ctr =>
    if h : j < l.length then
      let t := signalStep cdsS cdsE transS transE strand l[j] ctr
      let r := signalsLoop cdsS cdsE transS transE strand fuel
        (l.set j t.1 ++ t.2.1) (j+1) t.2.2
      (r.1, t.2.1 ++ r.2.1, r.2.2)
    else (l, [], ctr)

/-- The per-transcript-span scan of `gff_create_signals` (gff.c lines
1181-1186): min start and max end over CDS and UTR members. -/
def transSpan (g : GFF_FeatureGroup) : Int × Int :=
  g.features.foldl (fun (p : Int × Int) f =>
    if f.feature = GFF_CDS_TYPE ∨ f.feature = GFF_UTR5_TYPE ∨ f.feature = GFF_UTR3_TYPE then
      ((if f.start < p.1 then f.start else p.1), (if f.stop > p.2 then f.stop else p.2))
    else p) (INFTY, -1)

/-- `gff_create_signals` on one group (gff.c lines 1169-1254). -/
def createSignalsGroup (g : GFF_FeatureGroup) (ctr : Nat) :
    GFF_FeatureGroup × List GFF_Feature × Nat :=
  let sp := cdsSpan g
  let tr := transSpan g
  let strand := groupStrand g
  let r := signalsLoop sp.1 sp.2 tr.1 tr.2 strand
    (5 * (g.features.length + 1)) g.features 0 ctr
  ({ g with features := r.1 }, r.2.1, r.2.2)

/-- `gff_create_signals` (gff.c lines 1163-1256): requires groups; CDS
features may be trimmed in place (propagated to the flat list through the
aliasing), created features are appended to both views. -/
def gff_create_signals (s : GFF_Set) : Except String GFF_Set :=
  match s.groups with
  | none => .error "ERROR: gff_create_signals requires groups.\n"
  | some gs =>
    let r := gs.foldl (fun (acc : List GFF_FeatureGroup × List GFF_Feature × Nat) g =>
      let t := createSignalsGroup g acc.2.2
      (acc.1 ++ [t.1], acc.2.1 ++ t.2.1, t.2.2)) ([], [], freshIdBase s)
    .ok { s with groups := some r.1, features := syncFeatures s.features r.1 ++ r.2.1 }

deriving instance DecidableEq for Except

/-- Concrete feature builder for the worked examples below: unused columns
fixed, no score, no frame. -/
def mkFeat (i : Nat) (typ : String) (a b : Int) (sd : Char) (att : String) : GFF_Feature :=
  ⟨i, "chr1", "src", typ, a, b, none, sd, none, att⟩

/-- A concrete tag extractor for the worked examples: the whole attribute
text is the tag value. -/
def keyAttr : GFF_Feature → String := fun f => f.attr

/-- Overlap-resolution example, group A's single feature: [1,10], score 5. -/
def roFa : GFF_Feature := { mkFeat 1 GFF_CDS_TYPE 1 10 '+' "A" with score := some 5 }

/-- Overlap-resolution example, group B's single feature: [5,15], score 3. -/
def roFb : GFF_Feature := { mkFeat 2 GFF_CDS_TYPE 5 15 '+' "B" with score := some 3 }

/-- Overlap-resolution example, group C's single feature: [20,25], score 1. -/
def roFc : GFF_Feature := { mkFeat 3 GFF_CDS_TYPE 20 25 '+' "C" with score := some 1 }

/-- Group A = [1,10], total score 5. -/
def roA : GFF_FeatureGroup := ⟨"A", [roFa], 1, 10⟩

/-- Group B = [5,15], total score 3 (overlaps A). -/
def roB : GFF_FeatureGroup := ⟨"B", [roFb], 5, 15⟩

/-- Group C = [20,25], total score 1 (overlaps neither A nor B). -/
def roC : GFF_FeatureGroup := ⟨"C", [roFc], 20, 25⟩

/-- The grouped set {A, B, C} of the overlap-resolution example. -/
def roSet : GFF_Set := ⟨[roFa, roFb, roFc], some [roA, roB, roC], some "transcript_id"⟩

/-- Expected overlap-resolution survivor set: exactly A and C. -/
def roOut : GFF_Set := ⟨[roFa, roFc], some [roA, roC], some "transcript_id"⟩

/-- Sort counterexample, member of group g1: [1,100]. -/
def cx1 : GFF_Feature := mkFeat 1 GFF_EXON_TYPE 1 100 '+' "g1"

/-- Sort counterexample, member of group g1: [50,60]. -/
def cx2 : GFF_Feature := mkFeat 2 GFF_EXON_TYPE 50 60 '+' "g1"

/-- Sort counterexample, sole member of group g2: [5,10]. -/
def cx3 : GFF_Feature := mkFeat 3 GFF_EXON_TYPE 5 10 '+' "g2"

/-- A grouped set whose group spans interleave: g1 = [1,100] ⊃ g2 = [5,10]. -/
def cxSet : GFF_Set := gff_group keyAttr "transcript_id" ⟨[cx1, cx2, cx3], none, none⟩

/-- Group-respecting merge example: three same-type `+`-strand frameless
features; the first two share a group, the third sits alone in another. -/
def c6f1 : GFF_Feature := mkFeat 1 "X" 1 10 '+' ""

/-- See `c6f1`: second feature, same group, adjacent to the first. -/
def c6f2 : GFF_Feature := mkFeat 2 "X" 11 20 '+' ""

/-- See `c6f1`: third feature, different group, adjacent to the merged span. -/
def c6f3 : GFF_Feature := mkFeat 3 "X" 21 30 '+' ""

/-- The grouped set for the group-respecting merge example. -/
def c6set : GFF_Set :=
  ⟨[c6f1, c6f2, c6f3], some [⟨"a", [c6f1, c6f2], 1, 20⟩, ⟨"b", [c6f3], 21, 30⟩], some "tag"⟩

/-- What the group-respecting merge actually produces on `c6set`: the first
two features merged, and the cross-group feature `c6f3` gone from the flat
list (it survives only as a group member). -/
def c6out : GFF_Set :=
  ⟨[{ c6f1 with stop := 20 }],
   some [⟨"a", [{ c6f1 with stop := 20 }], 1, 20⟩, ⟨"b", [c6f3], 21, 30⟩], some "tag"⟩

/-- UTR-derivation example: the exon [1,100]. -/
def c8exon : GFF_Feature := mkFeat 1 GFF_EXON_TYPE 1 100 '+' "t1"

/-- UTR-derivation example: the CDS [20,80]. -/
def c8cds : GFF_Feature := mkFeat 2 GFF_CDS_TYPE 20 80 '+' "t1"

/-- The one-transcript grouped set of the UTR-derivation example. -/
def c8set : GFF_Set :=
  ⟨[c8exon, c8cds], some [⟨"t1", [c8exon, c8cds], 1, 100⟩], some "transcript_id"⟩

/-- The derived 5'UTR [1,19] (a clipped copy of the exon). -/
def c8utr5 : GFF_Feature := { c8exon with id := 3, stop := 19, feature := GFF_UTR5_TYPE }

/-- The derived 3'UTR [81,100] (a clipped copy of the exon). -/
def c8utr3 : GFF_Feature := { c8exon with id := 4, start := 81, feature := GFF_UTR3_TYPE }

/-- Expected result of UTR derivation on `c8set`: both UTRs appended to the
flat list and to the group, the CDS untouched. -/
def c8out : GFF_Set :=
  ⟨[c8exon, c8cds, c8utr5, c8utr3],
   some [⟨"t1", [c8exon, c8cds, c8utr5, c8utr3], 1, 100⟩], some "transcript_id"⟩

/-- Merger-idempotence witness input: two overlapping same-type features. -/
def w7a : GFF_Feature := mkFeat 1 "X" 1 10 '+' ""

/-- See `w7a`. -/
def w7b : GFF_Feature := mkFeat 2 "X" 5 20 '+' ""

/-- A sorted ungrouped set on which the Merger does merge something. -/
def w7set : GFF_Set := ⟨[w7a, w7b], none, none⟩

/-- Reverse-complement witness input. -/
def rv1 : GFF_Feature := mkFeat 1 GFF_EXON_TYPE 3 7 '+' ""

/-- Reverse-complement witness input. -/
def rv2 : GFF_Feature := mkFeat 2 GFF_EXON_TYPE 10 12 '-' ""

/-- Precondition-abort witness: one group holding one feature. -/
def c9gs : List GFF_FeatureGroup := [⟨"a", [mkFeat 1 GFF_EXON_TYPE 1 10 '+' ""], 1, 10⟩]

/-- Precondition-abort witness: a feature located in no group. -/
def c9f : GFF_Feature := mkFeat 99 GFF_EXON_TYPE 1 10 '+' ""

/-- C4: for every external frame value f in {0,1,2}, reading stores
(3-f) % 3 internally and printing converts back with (3-internal) % 3,
reproducing exactly f; the undefined frame is read from and rendered
as a dot. -/
theorem frame_round_trip (f : Int) (h : 0 ≤ f ∧ f ≤ 2) :
    gff_read_frame (some f) = Except.ok (some (Int.tmod (3 - f) 3)) ∧
    gff_print_frame (some (Int.tmod (3 - f) 3)) = toString f ∧
    gff_read_frame none = Except.ok none ∧
    gff_print_frame none = "." := by
  have hf : f = 0 ∨ f = 1 ∨ f = 2 := by omega
  rcases hf with rfl | rfl | rfl <;> exact ⟨by decide, by decide, rfl, rfl⟩

/-- Witness for `frame_round_trip` at f = 1. -/
theorem frame_round_trip_witness :
    (0 ≤ (1 : Int) ∧ (1 : Int) ≤ 2) ∧
    (gff_read_frame (some 1) = Except.ok (some (Int.tmod (3 - 1) 3)) ∧
     gff_print_frame (some (Int.tmod (3 - 1) 3)) = toString (1 : Int) ∧
     gff_read_frame none = Except.ok none ∧
     gff_print_frame none = ".") :=
  ⟨by decide, frame_round_trip 1 (by decide)⟩

/-- C3 (amended): after `gff_sort` on an UNGROUPED set, every adjacent pair
(a, b) of the output satisfies a.start < b.start, or a.start = b.start and
a.end ≤ b.end.  (On a grouped set the same holds only within each group:
see the counterexample `gff_sort_grouped_not_globally_sorted`.) -/
theorem gff_sort_sorted_of_ungrouped (s : GFF_Set) (h : s.groups = none) :
    List.Chain' (fun a b : GFF_Feature =>
      a.start < b.start ∨ (a.start = b.start ∧ a.stop ≤ b.stop)) (gff_sort s).features := by
  obtain ⟨feats, gr, tag⟩ := s
  cases h
  exact (List.sorted_insertionSort featLe feats).chain'

/-- Witness for `gff_sort_sorted_of_ungrouped` on a concrete ungrouped set. -/
theorem gff_sort_sorted_of_ungrouped_witness :
    (GFF_Set.groups ⟨[cx1, cx2, cx3], none, none⟩ = none) ∧
    List.Chain' (fun a b : GFF_Feature =>
      a.start < b.start ∨ (a.start = b.start ∧ a.stop ≤ b.stop))
      (gff_sort ⟨[cx1, cx2, cx3], none, none⟩).features :=
  ⟨rfl, gff_sort_sorted_of_ungrouped ⟨[cx1, cx2, cx3], none, none⟩ rfl⟩

/-- C3 counterexample: on a grouped set whose group spans interleave,
`gff_sort` emits the concatenation of the sorted groups, and an adjacent
pair across a group boundary violates the claimed order ([50,60] is
followed by [5,10]). -/
theorem gff_sort_grouped_not_globally_sorted :
    ¬ List.Chain' (fun a b : GFF_Feature =>
       a.start < b.start ∨ (a.start = b.start ∧ a.stop ≤ b.stop))
      (gff_sort cxSet).features := by
  have hfe : (gff_sort cxSet).features = [cx1, cx2, cx3] := by decide
  intro hch
  rw [hfe] at hch
  have h23 := (List.chain'_cons.mp (List.chain'_cons.mp hch).2).1
  exact absurd h23 (by decide)

/-- `findPosById` misses when no member has the id. -/
theorem findPosById_eq_none (ms : List GFF_Feature) (fid : Nat)
    (h : ∀ m ∈ ms, m.id ≠ fid) : ∀ p, findPosById ms fid p = none := by
  induction ms with
  | nil => intro p; rfl
  | cons m ms ih =>
    intro p
    unfold findPosById
    rw [if_neg (h m (List.mem_cons_self m ms))]
    exact ih (fun m hm => h m (List.mem_cons_of_mem _ hm)) (p+1)

/-- `searchGroups` misses when no group member has the id. -/
theorem searchGroups_eq_none (gs : List GFF_FeatureGroup) (fid : Nat)
    (h : ∀ g ∈ gs, ∀ m ∈ g.features, m.id ≠ fid) : ∀ i, searchGroups gs fid i = none := by
  induction gs with
  | nil => intro i; rfl
  | cons g gs ih =>
    intro i
    unfold searchGroups
    rw [findPosById_eq_none g.features fid (h g (List.mem_cons_self g gs)) 0]
    exact ih (fun g' hg' => h g' (List.mem_cons_of_mem _ hg')) (i+1)

/-- C9: on an ungrouped set every operation that requires the grouping
aborts with its descriptive message (no partial result: the error carries
no set), and on a grouped set the membership lookup aborts for a feature
located in no group. -/
theorem grouped_precondition_aborts (s : GFF_Set) (h : s.groups = none)
    (primary helpers names : List String) (keyOf : GFF_Feature → String)
    (gs : List GFF_FeatureGroup) (f : GFF_Feature)
    (hf : ∀ g ∈ gs, ∀ m ∈ g.features, m.id ≠ f.id) :
    gff_remove_overlaps s = .error "ERROR: gff_remove_overlaps requires groups.\n" ∧
    gff_fix_start_stop s = .error "ERROR: gff_fix_start_stop requires groups.\n" ∧
    gff_absorb_helpers primary helpers s = .error "ERROR: gff_absorb_helpers requires groups.\n" ∧
    gff_add_gene_id s = .error "ERROR: gff_apply_gene_id requires groups.\n" ∧
    gff_filter_by_group keyOf names s = .error "ERROR: gff_filter_by_group requires groups.\n" ∧
    gff_create_utrs s = .error "ERROR: gff_create_utrs requires groups.\n" ∧
    gff_create_introns s = .error "ERROR: gff_create_introns requires groups.\n" ∧
    gff_create_signals s = .error "ERROR: gff_create_signals requires groups.\n" ∧
    gff_group_idx { s with groups := some gs } f =
      .error "ERROR: gff_group_idx couldn't find feature in any group\n" := by
  obtain ⟨feats, gr, tag⟩ := s
  cases h
  refine ⟨rfl, rfl, rfl, rfl, rfl, rfl, rfl, rfl, ?_⟩
  have hs := searchGroups_eq_none gs f.id hf 0
  simp [gff_group_idx, hs]

/-- Witness for `grouped_precondition_aborts` on concrete inputs. -/
theorem grouped_precondition_aborts_witness :
    ((GFF_Set.groups ⟨[], none, none⟩ = none) ∧
     (∀ g ∈ c9gs, ∀ m ∈ g.features, m.id ≠ c9f.id)) ∧
    (gff_remove_overlaps ⟨[], none, none⟩ =
       .error "ERROR: gff_remove_overlaps requires groups.\n" ∧
     gff_fix_start_stop ⟨[], none, none⟩ =
       .error "ERROR: gff_fix_start_stop requires groups.\n" ∧
     gff_absorb_helpers [] [] ⟨[], none, none⟩ =
       .error "ERROR: gff_absorb_helpers requires groups.\n" ∧
     gff_add_gene_id ⟨[], none, none⟩ =
       .error "ERROR: gff_apply_gene_id requires groups.\n" ∧
     gff_filter_by_group keyAttr [] ⟨[], none, none⟩ =
       .error "ERROR: gff_filter_by_group requires groups.\n" ∧
     gff_create_utrs ⟨[], none, none⟩ =
       .error "ERROR: gff_create_utrs requires groups.\n" ∧
     gff_create_introns ⟨[], none, none⟩ =
       .error "ERROR: gff_create_introns requires groups.\n" ∧
     gff_create_signals ⟨[], none, none⟩ =
       .error "ERROR: gff_create_signals requires groups.\n" ∧
     gff_group_idx { GFF_Set.mk [] none none with groups := some c9gs } c9f =
       .error "ERROR: gff_group_idx couldn't find feature in any group\n") :=
  ⟨⟨rfl, by decide⟩,
   grouped_precondition_aborts ⟨[], none, none⟩ rfl [] [] [] keyAttr c9gs c9f (by decide)⟩

/-- C5: reverse-complementing a window maps the element at position
n-1-i of the input to position i of the output (record order reversed),
with start' = end_range - end + start_range, end' = end_range - start +
start_range, and the strand flipped. -/
theorem reverse_compl_spec (fs : List GFF_Feature) (s e : Int) (i : Nat)
    (h : i < fs.length) :
    (gff_reverse_compl fs s e).length = fs.length ∧
    ∃ f g, fs[fs.length - 1 - i]? = some f ∧ (gff_reverse_compl fs s e)[i]? = some g ∧
      g.start = e - f.stop + s ∧ g.stop = e - f.start + s ∧
      (f.strand = '+' → g.strand = '-') ∧ (f.strand = '-' → g.strand = '+') ∧
      (f.strand = '.' → g.strand = '.') := by
  have hj : fs.length - 1 - i < fs.length := by omega
  obtain ⟨f, hf⟩ : ∃ f, fs[fs.length - 1 - i]? = some f :=
    ⟨fs[fs.length - 1 - i], List.getElem?_eq_getElem hj⟩
  have hlen : (gff_reverse_compl fs s e).length = fs.length := by
    simp [gff_reverse_compl]
  refine ⟨hlen, f, reverse_compl_feat s e f, hf, ?_, ?_, ?_, ?_, ?_, ?_⟩
  · have hi : i < (fs.map (reverse_compl_feat s e)).length := by simpa using h
    rw [gff_reverse_compl, List.getElem?_reverse hi, List.getElem?_map]
    simp only [List.length_map]
    rw [hf]
    rfl
  · rfl
  · rfl
  · intro hs; simp [reverse_compl_feat, hs]
  · intro hs; simp [reverse_compl_feat, hs]
  · intro hs; simp [reverse_compl_feat, hs]

/-- Witness for `reverse_compl_spec` on a two-feature list, window [1,15],
position 0. -/
theorem reverse_compl_spec_witness :
    (0 < [rv1, rv2].length) ∧
    ((gff_reverse_compl [rv1, rv2] 1 15).length = [rv1, rv2].length ∧
     ∃ f g, [rv1, rv2][[rv1, rv2].length - 1 - 0]? = some f ∧
       (gff_reverse_compl [rv1, rv2] 1 15)[0]? = some g ∧
       g.start = 15 - f.stop + 1 ∧ g.stop = 15 - f.start + 1 ∧
       (f.strand = '+' → g.strand = '-') ∧ (f.strand = '-' → g.strand = '+') ∧
       (f.strand = '.' → g.strand = '.')) :=
  ⟨by decide, reverse_compl_spec [rv1, rv2] 1 15 0 (by decide)⟩

/-- `gff_group_step` preserves the per-group span property: every group of
the accumulator whose cached span is the min/max over its members keeps
that shape after one more feature is filed. -/
theorem gff_group_step_span (keyOf : GFF_Feature → String) (gs : List GFF_FeatureGroup)
    (f : GFF_Feature)
    (hgs : ∀ g ∈ gs, (∀ m ∈ g.features, g.start ≤ m.start ∧ m.stop ≤ g.stop) ∧
      (∃ m ∈ g.features, m.start = g.start) ∧ (∃ m ∈ g.features, m.stop = g.stop)) :
    ∀ g ∈ gff_group_step keyOf gs f,
      (∀ m ∈ g.features, g.start ≤ m.start ∧ m.stop ≤ g.stop) ∧
      (∃ m ∈ g.features, m.start = g.start) ∧ (∃ m ∈ g.features, m.stop = g.stop) := by
  intro g hg
  unfold gff_group_step at hg
  by_cases hany : gs.any (fun g => g.name == keyOf f)
  · rw [if_pos hany] at hg
    obtain ⟨g0, hg0, rfl⟩ := List.mem_map.mp hg
    by_cases hname : g0.name = keyOf f
    · rw [if_pos hname]
      obtain ⟨hall, ⟨ms, hms, hmse⟩, ⟨me, hme, hmee⟩⟩ := hgs g0 hg0
      refine ⟨?_, ?_, ?_⟩
      · intro m hm
        rcases List.mem_append.mp hm with hm | hm
        · have h1 := (hall m hm).1
          have h2 := (hall m hm).2
          constructor <;> dsimp only <;> split <;> omega
        · rw [List.mem_singleton.mp hm]
          constructor <;> dsimp only <;> split <;> omega
      · by_cases hlt : f.start < g0.start
        · exact ⟨f, List.mem_append.mpr (Or.inr (List.mem_singleton.mpr rfl)),
            by dsimp only; rw [if_pos hlt]⟩
        · exact ⟨ms, List.mem_append.mpr (Or.inl hms),
            by dsimp only; rw [if_neg hlt]; exact hmse⟩
      · by_cases hgt : f.stop > g0.stop
        · exact ⟨f, List.mem_append.mpr (Or.inr (List.mem_singleton.mpr rfl)),
            by dsimp only; rw [if_pos hgt]⟩
        · exact ⟨me, List.mem_append.mpr (Or.inl hme),
            by dsimp only; rw [if_neg hgt]; exact hmee⟩
    · rw [if_neg hname]
      exact hgs g0 hg0
  · rw [if_neg hany] at hg
    rcases List.mem_append.mp hg with hg | hg
    · exact hgs g hg
    · rw [List.mem_singleton.mp hg]
      exact ⟨fun m hm => by rw [List.mem_singleton.mp hm]; exact ⟨le_refl _, le_refl _⟩,
        ⟨f, List.mem_singleton.mpr rfl, rfl⟩, ⟨f, List.mem_singleton.mpr rfl, rfl⟩⟩

/-- The span property holds for every group produced by folding
`gff_group_step` from an accumulator all of whose groups have it. -/
theorem gff_group_foldl_span (keyOf : GFF_Feature → String) :
    ∀ (l : List GFF_Feature) (gs : List GFF_FeatureGroup),
      (∀ g ∈ gs, (∀ m ∈ g.features, g.start ≤ m.start ∧ m.stop ≤ g.stop) ∧
        (∃ m ∈ g.features, m.start = g.start) ∧ (∃ m ∈ g.features, m.stop = g.stop)) →
      ∀ g ∈ l.foldl (gff_group_step keyOf) gs,
        (∀ m ∈ g.features, g.start ≤ m.start ∧ m.stop ≤ g.stop) ∧
        (∃ m ∈ g.features, m.start = g.start) ∧ (∃ m ∈ g.features, m.stop = g.stop) := by
  intro l
  induction l with
  | nil => intro gs h g hg; exact h g hg
  | cons f l ih =>
    intro gs h g hg
    exact ih (gff_group_step keyOf gs f) (gff_group_step_span keyOf gs f h) g hg

/-- C2 (the part the code gets right): after `gff_group`, every group's
cached span is exactly the min of its members' starts and the max of its
members' ends, for every tag extractor and every input set.  The other
membership-changing operation of the claim, the group-respecting merge
`gff_flatten_sub`, does NOT maintain membership: at gff.c line 1323 it
passes the `GFF_FeatureGroup` object itself — not its member list — to
`lst_delete_idx`, so the intended removal of the merged-away member never
happens (the group object is corrupted instead). -/
theorem gff_group_span_invariant (keyOf : GFF_Feature → String) (tag : String)
    (s : GFF_Set) (g : GFF_FeatureGroup)
    (hg : g ∈ ((gff_group keyOf tag s).groups).getD []) :
    (∀ m ∈ g.features, g.start ≤ m.start ∧ m.stop ≤ g.stop) ∧
    (∃ m ∈ g.features, m.start = g.start) ∧ (∃ m ∈ g.features, m.stop = g.stop) := by
  have hg' : g ∈ s.features.foldl (gff_group_step keyOf) [] := hg
  exact gff_group_foldl_span keyOf s.features [] (by intro g hg0; cases hg0) g hg'

/-- Witness for `gff_group_span_invariant` on the concrete grouped set
`cxSet` and its first group. -/
theorem gff_group_span_invariant_witness :
    ((⟨"g1", [cx1, cx2], 1, 100⟩ : GFF_FeatureGroup) ∈
      ((gff_group keyAttr "transcript_id" ⟨[cx1, cx2, cx3], none, none⟩).groups).getD []) ∧
    ((∀ m ∈ (⟨"g1", [cx1, cx2], 1, 100⟩ : GFF_FeatureGroup).features,
        (1 : Int) ≤ m.start ∧ m.stop ≤ 100) ∧
     (∃ m ∈ (⟨"g1", [cx1, cx2], 1, 100⟩ : GFF_FeatureGroup).features, m.start = 1) ∧
     (∃ m ∈ (⟨"g1", [cx1, cx2], 1, 100⟩ : GFF_FeatureGroup).features, m.stop = 100)) :=
  ⟨by decide, gff_group_span_invariant keyAttr "transcript_id"
    ⟨[cx1, cx2, cx3], none, none⟩ ⟨"g1", [cx1, cx2], 1, 100⟩ (by decide)⟩

/-- Every feature the splice blocks create is a splice-site feature. -/
theorem signalSplices_mem (cdsS cdsE transS transE : Int) (strand : Char)
    (f : GFF_Feature) (ctr : Nat) :
    ∀ g ∈ (signalSplices cdsS cdsE transS transE strand f ctr).1,
      g.feature = GFF_SPLICE5_TYPE ∨ g.feature = GFF_SPLICE3_TYPE := by
  intro g hg
  unfold signalSplices at hg
  split at hg <;> split at hg <;> (try split at hg) <;>
    simp only [List.mem_append, List.mem_cons, List.mem_singleton, List.not_mem_nil,
      or_false, false_or, List.nil_append] at hg <;>
    rcases hg with rfl | rfl <;> simp

/-- C10: in the signal pass, a CDS feature shorter than 3 bp produces no
start-codon and no stop-codon feature and keeps its coordinates (and every
other field) unchanged — only the guarded codon block of the loop touches
the CDS or creates codons, and its guard requires end - start + 1 ≥ 3. -/
theorem signals_short_cds_untouched (cdsS cdsE transS transE : Int) (strand : Char)
    (f : GFF_Feature) (ctr : Nat) (hcds : f.feature = GFF_CDS_TYPE)
    (hshort : f.stop - f.start + 1 < 3) :
    (signalStep cdsS cdsE transS transE strand f ctr).1 = f ∧
    ∀ g ∈ (signalStep cdsS cdsE transS transE strand f ctr).2.1,
      g.feature ≠ GFF_START_TYPE ∧ g.feature ≠ GFF_STOP_TYPE := by
  have hc : ¬ (f.feature = GFF_CDS_TYPE ∧ f.stop - f.start + 1 ≥ 3) := by
    intro hx; omega
  have hcod : signalCodons cdsS cdsE strand f ctr = (f, [], ctr) := by
    unfold signalCodons; rw [if_neg hc]
  constructor
  · show (signalStep cdsS cdsE transS transE strand f ctr).1 = f
    unfold signalStep
    rw [hcod]
  · intro g hgmem
    unfold signalStep at hgmem
    rw [hcod] at hgmem
    simp only [List.nil_append] at hgmem
    have hsp := signalSplices_mem cdsS cdsE transS transE strand f ctr g hgmem
    rcases hsp with h | h <;> rw [h] <;> exact ⟨by decide, by decide⟩

/-- Witness for `signals_short_cds_untouched` on a 2-bp CDS. -/
theorem signals_short_cds_untouched_witness :
    ((mkFeat 1 GFF_CDS_TYPE 10 11 '+' "").feature = GFF_CDS_TYPE ∧
     (mkFeat 1 GFF_CDS_TYPE 10 11 '+' "").stop - (mkFeat 1 GFF_CDS_TYPE 10 11 '+' "").start + 1 < 3) ∧
    ((signalStep 10 11 0 0 '+' (mkFeat 1 GFF_CDS_TYPE 10 11 '+' "") 5).1 =
       mkFeat 1 GFF_CDS_TYPE 10 11 '+' "" ∧
     ∀ g ∈ (signalStep 10 11 0 0 '+' (mkFeat 1 GFF_CDS_TYPE 10 11 '+' "") 5).2.1,
       g.feature ≠ GFF_START_TYPE ∧ g.feature ≠ GFF_STOP_TYPE) :=
  ⟨by decide, signals_short_cds_untouched 10 11 0 0 '+'
    (mkFeat 1 GFF_CDS_TYPE 10 11 '+' "") 5 (by decide) (by decide)⟩

/-- C6 (what the code actually does): on `c6set` the group-respecting
merge combines the first two (same-group) features, but the third feature
— mergeable with the result yet in a DIFFERENT group — is silently dropped
from the flat feature list by the `continue` at gff.c line 1320, instead
of remaining in the set as the merge conditions' failure should leave it. -/
theorem flatten_keep_drops_cross_group_feature :
    gff_flatten_sub_keep c6set = Except.ok c6out ∧
    c6f3 ∈ c6set.features ∧ c6f3 ∉ c6out.features := by decide

/-- `mergeable` only inspects start, strand, type and frame of its second
argument. -/
theorem mergeable_congr (x a b : GFF_Feature) (hs : a.start = b.start)
    (hstr : a.strand = b.strand) (hf : a.feature = b.feature) (hfr : a.frame = b.frame) :
    mergeable x a = mergeable x b := by
  unfold mergeable; rw [hs, hstr, hf, hfr]

/-- Unfolding equation of `flattenRun` when the pair merges. -/
theorem flattenRun_cons_merge (last nxt : GFF_Feature) (rest : List GFF_Feature)
    (hm : mergeable last nxt = true) :
    flattenRun last (nxt :: rest) = ((flattenRun (mergeFeat last nxt) rest).1, true) := by
  simp only [flattenRun]; rw [if_pos hm]

/-- Unfolding equation of `flattenRun` when the pair does not merge. -/
theorem flattenRun_cons_keep (last nxt : GFF_Feature) (rest : List GFF_Feature)
    (hm : mergeable last nxt = false) :
    flattenRun last (nxt :: rest) =
      (last :: (flattenRun nxt rest).1, (flattenRun nxt rest).2) := by
  simp only [flattenRun]; rw [if_neg (by simp [hm])]

/-- The keepers list is nonempty, and its head agrees with the running
feature on every field `mergeable` inspects on the left (merging only
rewrites end and score). -/
theorem flattenRun_head : ∀ (rest : List GFF_Feature) (last : GFF_Feature),
    ∃ h t, (flattenRun last rest).1 = h :: t ∧ h.start = last.start ∧
      h.strand = last.strand ∧ h.feature = last.feature ∧ h.frame = last.frame := by
  intro rest
  induction rest with
  | nil => intro last; exact ⟨last, [], rfl, rfl, rfl, rfl, rfl⟩
  | cons nxt rest ih =>
    intro last
    cases hm : mergeable last nxt with
    | true =>
      obtain ⟨h, t, h1, h2, h3, h4, h5⟩ := ih (mergeFeat last nxt)
      exact ⟨h, t, by rw [flattenRun_cons_merge last nxt rest hm]; exact h1, h2, h3, h4, h5⟩
    | false =>
      exact ⟨last, (flattenRun nxt rest).1,
        by rw [flattenRun_cons_keep last nxt rest hm], rfl, rfl, rfl, rfl⟩

/-- After one merging pass no adjacent pair of the keepers is mergeable:
each keeper was finalized exactly when its successor failed the merge test,
and later mutations never touch the fields the test reads. -/
theorem flattenRun_chain : ∀ (rest : List GFF_Feature) (last : GFF_Feature),
    List.Chain' (fun a b => mergeable a b = false) (flattenRun last rest).1 := by
  intro rest
  induction rest with
  | nil => intro last; exact List.chain'_singleton last
  | cons nxt rest ih =>
    intro last
    cases hm : mergeable last nxt with
    | true => rw [flattenRun_cons_merge last nxt rest hm]; exact ih (mergeFeat last nxt)
    | false =>
      rw [flattenRun_cons_keep last nxt rest hm]
      obtain ⟨h, t, h1, h2, h3, h4, h5⟩ := flattenRun_head rest nxt
      rw [h1]
      refine List.chain'_cons.mpr ⟨?_, ?_⟩
      · rw [mergeable_congr last h nxt h2 h3 h4 h5]; exact hm
      · rw [← h1]; exact ih nxt

/-- On a list with no mergeable adjacent pair the merging pass is the
identity and reports no change. -/
theorem flattenRun_stable : ∀ (rest : List GFF_Feature) (last : GFF_Feature),
    List.Chain' (fun a b => mergeable a b = false) (last :: rest) →
    flattenRun last rest = (last :: rest, false) := by
  intro rest
  induction rest with
  | nil => intro last _; rfl
  | cons nxt rest ih =>
    intro last hch
    rw [flattenRun_cons_keep last nxt rest (List.chain'_cons.mp hch).1,
        ih nxt (List.chain'_cons.mp hch).2]

/-- When the merging pass reports no change it returned its input. -/
theorem flattenRun_id_of_unchanged : ∀ (rest : List GFF_Feature) (last : GFF_Feature),
    (flattenRun last rest).2 = false → (flattenRun last rest).1 = last :: rest := by
  intro rest
  induction rest with
  | nil => intro last _; rfl
  | cons nxt rest ih =>
    intro last h2
    cases hm : mergeable last nxt with
    | true => rw [flattenRun_cons_merge _ _ _ hm] at h2; cases h2
    | false =>
      rw [flattenRun_cons_keep _ _ _ hm] at h2 ⊢
      simp only at h2 ⊢
      rw [ih nxt h2]

/-- C7: the Merger is idempotent — on a sorted set a second `gff_flatten`
changes nothing, and indeed no adjacent pair of the first run's output
satisfies the merge conditions. -/
theorem gff_flatten_idempotent (s : GFF_Set) (hsort : List.Sorted featLe s.features) :
    gff_flatten (gff_flatten s) = gff_flatten s ∧
    List.Chain' (fun a b => mergeable a b = false) (gff_flatten s).features := by
  obtain ⟨feats, groups, tag⟩ := s
  match feats with
  | [] => exact ⟨rfl, List.chain'_nil⟩
  | [f] => exact ⟨rfl, List.chain'_singleton f⟩
  | f :: nxt :: rest =>
    have hdef : gff_flatten ⟨f :: nxt :: rest, groups, tag⟩ =
        (if (flattenRun f (nxt :: rest)).2 = true then
          gff_ungroup ⟨(flattenRun f (nxt :: rest)).1, groups, tag⟩
        else ⟨f :: nxt :: rest, groups, tag⟩) := rfl
    cases hr : (flattenRun f (nxt :: rest)).2 with
    | false =>
      have hfeat := flattenRun_id_of_unchanged (nxt :: rest) f hr
      have hflat : gff_flatten ⟨f :: nxt :: rest, groups, tag⟩ =
          ⟨f :: nxt :: rest, groups, tag⟩ := by
        rw [hdef, hr]; simp
      rw [hflat]
      exact ⟨hflat, by rw [show (GFF_Set.mk (f :: nxt :: rest) groups tag).features =
        (flattenRun f (nxt :: rest)).1 from hfeat.symm]; exact flattenRun_chain (nxt :: rest) f⟩
    | true =>
      have hflat : gff_flatten ⟨f :: nxt :: rest, groups, tag⟩ =
          gff_ungroup ⟨(flattenRun f (nxt :: rest)).1, groups, tag⟩ := by
        rw [hdef, hr]; simp
      obtain ⟨h, t, h1, -, -, -, -⟩ := flattenRun_head (nxt :: rest) f
      have hch := flattenRun_chain (nxt :: rest) f
      have hung : ∃ g2 t2, gff_ungroup ⟨(flattenRun f (nxt :: rest)).1, groups, tag⟩ =
          ⟨(flattenRun f (nxt :: rest)).1, g2, t2⟩ := by
        cases groups with
        | none => exact ⟨none, tag, rfl⟩
        | some gs => exact ⟨none, none, rfl⟩
      obtain ⟨g2, t2, hung⟩ := hung
      rw [hflat, hung]
      constructor
      · cases t with
        | nil => rw [h1]; rfl
        | cons h2 t2x =>
          have hchX : List.Chain' (fun a b => mergeable a b = false) (h :: h2 :: t2x) := by
            rw [← h1]; exact hch
          have hstable := flattenRun_stable (h2 :: t2x) h hchX
          have hfix : gff_flatten ⟨(flattenRun f (nxt :: rest)).1, g2, t2⟩ =
              ⟨(flattenRun f (nxt :: rest)).1, g2, t2⟩ := by
            rw [h1]
            have hdef2 : gff_flatten ⟨h :: h2 :: t2x, g2, t2⟩ =
                (if (flattenRun h (h2 :: t2x)).2 = true then
                  gff_ungroup ⟨(flattenRun h (h2 :: t2x)).1, g2, t2⟩
                else ⟨h :: h2 :: t2x, g2, t2⟩) := rfl
            rw [hdef2, hstable]
            simp
          rw [hfix]
      · exact hch

/-- Witness for `gff_flatten_idempotent` on a sorted two-feature set whose
first run does merge the pair. -/
theorem gff_flatten_idempotent_witness :
    (List.Sorted featLe w7set.features) ∧
    (gff_flatten (gff_flatten w7set) = gff_flatten w7set ∧
     List.Chain' (fun a b => mergeable a b = false) (gff_flatten w7set).features) :=
  ⟨by decide, gff_flatten_idempotent w7set (by decide)⟩

/-- C1: on the grouped set A = [1,10] (score 5), B = [5,15] (score 3),
C = [20,25] (score 1), the overlap resolver keeps exactly A and C and
discards B: B overlaps only A, and its score 3 does not beat A's 5. -/
theorem remove_overlaps_keeps_high_scorer :
    gff_remove_overlaps roSet = Except.ok roOut := by
  have hd : downScan [10] [5] 1 5 = (1, (0 : Rat) + 5) := rfl
  have hu : upScan [1] [5] 1 15 = (0, 0) := by rw [upScan]; norm_num
  have h1 : removeOverlapsStep ⟨[], [], [], [], -1⟩ roA = ⟨[1], [10], [5], [roA], 10⟩ := by
    norm_num [removeOverlapsStep, groupScore, roA, roFa, mkFeat]
  have h2 : removeOverlapsStep ⟨[1], [10], [5], [roA], 10⟩ roB = ⟨[1], [10], [5], [roA], 10⟩ := by
    have hsc : groupScore roB = (0 : Rat) + 3 := rfl
    have hst : roB.start = 5 := rfl
    have hsp : roB.stop = 15 := rfl
    have hbs : bsearchInt [1] (5 : Int) = 0 := rfl
    have ht : ((0 : Int) + 1).toNat = 1 := rfl
    simp only [removeOverlapsStep, hsc, hst, hsp, hbs, ht, hd, hu]
    norm_num
  have h3 : removeOverlapsStep ⟨[1], [10], [5], [roA], 10⟩ roC =
      ⟨[1, 20], [10, 25], [5, 1], [roA, roC], 25⟩ := by
    norm_num [removeOverlapsStep, groupScore, roC, roFc, mkFeat]
  simp only [gff_remove_overlaps, roSet]
  rw [List.foldl_cons, h1, List.foldl_cons, h2, List.foldl_cons, h3, List.foldl_nil]
  simp [roOut, roA, roC, roFa, roFc, mkFeat]

/-- C8: on a `+`-strand group with one exon [1,100] and one CDS [20,80],
`gff_create_utrs` appends exactly a 5'UTR [1,19] and a 3'UTR [81,100] to
both the flat list and the group, and the CDS keeps its coordinates and
type. -/
theorem create_utrs_example :
    gff_create_utrs c8set = Except.ok c8out ∧
    c8out.features = c8set.features ++ [c8utr5, c8utr3] ∧
    c8utr5.feature = GFF_UTR5_TYPE ∧ c8utr5.start = 1 ∧ c8utr5.stop = 19 ∧
    c8utr3.feature = GFF_UTR3_TYPE ∧ c8utr3.start = 81 ∧ c8utr3.stop = 100 ∧
    c8cds ∈ c8out.features ∧ c8cds.feature = GFF_CDS_TYPE ∧
    c8cds.start = 20 ∧ c8cds.stop = 80 := by decide

end Phast
